import Mathlib

/-!
Verification of the finance_forecasting_project analytics layer.

The repository's analytics module (`src/utils.py`) is exercised by its unit
tests, but the module body itself is not part of the analyzed sources; the
operations below are therefore modelled from the specification's contracts
(§3–§4 of the spec), over exact rational arithmetic, with missing cells as
`Option` values.  The data-fetch glue (`scripts/data_fetch.py`) is present in
the sources and `fetch_data` is embedded from it directly.
-/

/-- Error classes of the spec's §7 taxonomy. -/
inductive Err where
  | lookupError
  | invalidArgument
deriving DecidableEq

instance {ε α : Type} [DecidableEq ε] [DecidableEq α] : DecidableEq (Except ε α) := fun a b =>
  match a, b with
  | .ok x, .ok y => decidable_of_iff (x = y) (by simp)
  | .error x, .error y => decidable_of_iff (x = y) (by simp)
  | .ok _, .error _ => isFalse (by simp)
  | .error _, .ok _ => isFalse (by simp)

/-- A wide, time-indexed table: a date index plus named numeric columns whose
cells may be missing (`none`). -/
structure DataFrame where
  index : List Int
  cols : List (String × List (Option ℚ))
deriving DecidableEq

/-- Modelled from the spec: the canonical field order
{Open, High, Low, Close, Adj Close, Volume} (§3, §4.1). -/
def fields : List String := ["Open", "High", "Low", "Close", "Adj Close", "Volume"]

/-- Look up a column of the table by name. -/
def lookupCol (df : DataFrame) (name : String) : Option (List (Option ℚ)) :=
  (df.cols.find? (fun p => p.1 == name)).map Prod.snd

/-- Modelled from the spec: `extract_ticker_data` (§4.1), missing from
`src/utils.py`.  Select one ticker's `<TICKER>_<Field>` columns, strip the
ticker from the names, keep the canonical field order filtered to the
requested subset; an absent ticker column or absent requested field signals
a LookupError-class failure. -/
def extract_ticker_data (df : DataFrame) (ticker : String)
    (subset : Option (List String)) : Except Err DataFrame :=
  let requested : List String :=
    match subset with
    | none => fields
    | some s => s
  if requested.all (fun f => (lookupCol df (ticker ++ "_" ++ f)).isSome) then
    let kept : List String :=
      match subset with
      | none => fields
      | some s => fields.filter (fun f => s.contains f)
    .ok ⟨df.index, kept.map (fun f => (f, (lookupCol df (ticker ++ "_" ++ f)).getD []))⟩
  else
    .error .lookupError

def sampleTable : DataFrame :=
  ⟨[0, 1],
   [("TSLA_Open", [some 100, some 101]), ("TSLA_High", [some 105, some 106]),
    ("TSLA_Low", [some 95, some 96]), ("TSLA_Close", [some 102, some 103]),
    ("TSLA_Adj Close", [some 102, some 103]), ("TSLA_Volume", [some 1000, some 2000])]⟩

example :
    extract_ticker_data sampleTable "TSLA" none =
      .ok ⟨[0, 1],
        [("Open", [some 100, some 101]), ("High", [some 105, some 106]),
         ("Low", [some 95, some 96]), ("Close", [some 102, some 103]),
         ("Adj Close", [some 102, some 103]), ("Volume", [some 1000, some 2000])]⟩ := by
  decide

example :
    extract_ticker_data sampleTable "TSLA" (some ["Close", "Volume"]) =
      .ok ⟨[0, 1], [("Close", [some 102, some 103]), ("Volume", [some 1000, some 2000])]⟩ := by
  decide

example : extract_ticker_data sampleTable "SPY" none = .error .lookupError := by
  decide

lemma lookupCol_mem {df : DataFrame} {n : String} {c : List (Option ℚ)}
    (h : lookupCol df n = some c) : ∃ nm, (nm, c) ∈ df.cols := by
  unfold lookupCol at h
  cases hf : df.cols.find? (fun p => p.1 == n) with
  | none => rw [hf] at h; simp at h
  | some q =>
    rw [hf] at h
    simp only [Option.map_some', Option.some.injEq] at h
    exact ⟨q.1, by rw [← h]; exact List.mem_of_find?_eq_some hf⟩

lemma extract_none_ok (df : DataFrame) (t : String)
    (hall : ∀ f ∈ fields, (lookupCol df (t ++ "_" ++ f)).isSome = true) :
    extract_ticker_data df t none =
      .ok ⟨df.index, fields.map (fun f => (f, (lookupCol df (t ++ "_" ++ f)).getD []))⟩ := by
  simp only [extract_ticker_data]
  rw [if_pos (by rw [List.all_eq_true]; exact hall)]

lemma extract_some_ok (df : DataFrame) (t : String) (s : List String)
    (hall : ∀ f ∈ s, (lookupCol df (t ++ "_" ++ f)).isSome = true) :
    extract_ticker_data df t (some s) =
      .ok ⟨df.index,
        (fields.filter (fun f => s.contains f)).map
          (fun f => (f, (lookupCol df (t ++ "_" ++ f)).getD []))⟩ := by
  simp only [extract_ticker_data]
  rw [if_pos (by rw [List.all_eq_true]; exact hall)]

lemma extract_row_len {df : DataFrame} {t : String} {kept : List String}
    (hwf : ∀ p ∈ df.cols, p.2.length = df.index.length)
    (hk : ∀ f ∈ kept, (lookupCol df (t ++ "_" ++ f)).isSome = true) :
    ∀ p ∈ kept.map (fun f => (f, (lookupCol df (t ++ "_" ++ f)).getD [])),
      p.2.length = df.index.length := by
  intro p hp
  obtain ⟨f, hf, rfl⟩ := List.mem_map.1 hp
  obtain ⟨c, hc⟩ := Option.isSome_iff_exists.1 (hk f hf)
  obtain ⟨nm, hmem⟩ := lookupCol_mem hc
  simpa [hc] using hwf (nm, c) hmem

/-- C2: for a ticker whose prefixed columns are present, extraction with no
field subset yields exactly the 6 canonical columns in canonical order with
the row index and per-column row count of the source; with a field subset,
exactly the requested columns in canonical order filtered to the subset. -/
theorem extract_ticker_data_spec (T : DataFrame) (t : String)
    (hwf : ∀ p ∈ T.cols, p.2.length = T.index.length)
    (hall : ∀ f ∈ fields, (lookupCol T (t ++ "_" ++ f)).isSome = true) :
    (∃ R, extract_ticker_data T t none = .ok R ∧
       R.cols.map Prod.fst = fields ∧ R.cols.length = 6 ∧ R.index = T.index ∧
       ∀ p ∈ R.cols, p.2.length = T.index.length) ∧
    (∀ s, (∀ f ∈ s, f ∈ fields) →
       ∃ R, extract_ticker_data T t (some s) = .ok R ∧
         R.cols.map Prod.fst = fields.filter (fun f => s.contains f) ∧
         R.index = T.index ∧
         ∀ p ∈ R.cols, p.2.length = T.index.length) := by
  constructor
  · refine ⟨_, extract_none_ok T t hall, ?_, ?_, rfl, extract_row_len hwf hall⟩
    · simp only [List.map_map]
      exact List.map_id'' (fun x => rfl) _
    · simp [fields]
  · intro s hs
    have hk : ∀ f ∈ s, (lookupCol T (t ++ "_" ++ f)).isSome = true :=
      fun f hf => hall f (hs f hf)
    refine ⟨_, extract_some_ok T t s hk, ?_, rfl, ?_⟩
    · simp only [List.map_map]
      exact List.map_id'' (fun x => rfl) _
    · exact extract_row_len hwf (fun f hf => hall f (List.mem_filter.1 hf).1)

theorem extract_ticker_data_spec_witness :
    ((∀ p ∈ sampleTable.cols, p.2.length = sampleTable.index.length) ∧
      (∀ f ∈ fields, (lookupCol sampleTable ("TSLA" ++ "_" ++ f)).isSome = true)) ∧
    (∃ R, extract_ticker_data sampleTable "TSLA" none = .ok R ∧
       R.cols.map Prod.fst = fields ∧ R.cols.length = 6 ∧ R.index = sampleTable.index ∧
       ∀ p ∈ R.cols, p.2.length = sampleTable.index.length) :=
  ⟨⟨by decide, by decide⟩,
    (extract_ticker_data_spec sampleTable "TSLA" (by decide) (by decide)).1⟩

/-- C7: an absent ticker (no canonical field column carries its prefixed
name) signals a LookupError-class failure, and a requested field in the
subset with no matching column for that ticker signals the same failure. -/
theorem extract_ticker_data_absent (T : DataFrame) (t : String) :
    ((∀ f ∈ fields, lookupCol T (t ++ "_" ++ f) = none) →
       extract_ticker_data T t none = .error .lookupError) ∧
    (∀ s f, f ∈ s → lookupCol T (t ++ "_" ++ f) = none →
       extract_ticker_data T t (some s) = .error .lookupError) := by
  constructor
  · intro habs
    simp only [extract_ticker_data]
    rw [if_neg]
    intro hcontra
    rw [List.all_eq_true] at hcontra
    have h1 := hcontra "Open" (by simp [fields])
    rw [habs "Open" (by simp [fields])] at h1
    simp at h1
  · intro s f hf habs
    simp only [extract_ticker_data]
    rw [if_neg]
    intro hcontra
    rw [List.all_eq_true] at hcontra
    have h1 := hcontra f hf
    rw [habs] at h1
    simp at h1

theorem extract_ticker_data_absent_witness :
    (∀ f ∈ fields, lookupCol sampleTable ("SPY" ++ "_" ++ f) = none) ∧
    extract_ticker_data sampleTable "SPY" none = .error .lookupError :=
  ⟨by decide, (extract_ticker_data_absent sampleTable "SPY").1 (by decide)⟩

/-- Forward-fill one column: a missing cell takes the last defined value seen
so far (`last` is the value carried in from before the list). -/
def ffillCol (last : Option ℚ) : List (Option ℚ) → List (Option ℚ)
  | [] => []
  | none :: rest => last :: ffillCol last rest
  | some v :: rest => some v :: ffillCol (some v) rest

/-- Backward-fill one column: a missing cell takes the next defined value. -/
def bfillCol (l : List (Option ℚ)) : List (Option ℚ) :=
  (ffillCol none l.reverse).reverse

/-- Modelled from the spec: `preprocess_data` (§4.2), missing from
`src/utils.py`.  Repairs missing cells column by column, forward-fill first
and then backward-fill for still-missing leading gaps; shape unchanged. -/
def preprocess_data (df : DataFrame) : DataFrame :=
  ⟨df.index, df.cols.map (fun p => (p.1, bfillCol (ffillCol none p.2)))⟩

example :
    preprocess_data ⟨[0, 1, 2], [("A", [none, some 1, none]), ("B", [some 2, none, some 3])]⟩ =
      ⟨[0, 1, 2], [("A", [some 1, some 1, some 1]), ("B", [some 2, some 2, some 3])]⟩ := by
  decide

lemma ffillCol_length (last : Option ℚ) (l : List (Option ℚ)) :
    (ffillCol last l).length = l.length := by
  induction l generalizing last with
  | nil => rfl
  | cons x rest ih => cases x <;> simp [ffillCol, ih]

lemma bfillCol_length (l : List (Option ℚ)) : (bfillCol l).length = l.length := by
  simp [bfillCol, ffillCol_length]

lemma ffillCol_some_all (l : List (Option ℚ)) :
    ∀ (v : ℚ), ∀ y ∈ ffillCol (some v) l, y.isSome = true := by
  induction l with
  | nil => intro v y hy; simp [ffillCol] at hy
  | cons x rest ih =>
    intro v y hy
    cases x with
    | none =>
      rcases List.mem_cons.1 hy with rfl | hy'
      · rfl
      · exact ih v y hy'
    | some u =>
      rcases List.mem_cons.1 hy with rfl | hy'
      · rfl
      · exact ih u y hy'

lemma getLast?_cons_of_ne_nil {α : Type} (a : α) {l : List α} (h : l ≠ []) :
    (a :: l).getLast? = l.getLast? := by
  cases l with
  | nil => exact absurd rfl h
  | cons b m => exact List.getLast?_cons_cons

lemma ffillCol_getLast (l : List (Option ℚ)) :
    ∀ last, (∃ x ∈ l, x.isSome = true) →
      ∃ v, (ffillCol last l).getLast? = some (some v) := by
  induction l with
  | nil => intro last h; obtain ⟨x, hx, _⟩ := h; simp at hx
  | cons x rest ih =>
    intro last h
    cases x with
    | some u =>
      show ∃ v, (some u :: ffillCol (some u) rest).getLast? = some (some v)
      by_cases hne : ffillCol (some u) rest = []
      · rw [hne]; exact ⟨u, rfl⟩
      · obtain ⟨y, hy⟩ := Option.isSome_iff_exists.1 (List.getLast?_isSome.2 hne)
        have hmem : y ∈ ffillCol (some u) rest := List.mem_of_getLast?_eq_some hy
        obtain ⟨w, hw⟩ := Option.isSome_iff_exists.1 (ffillCol_some_all rest u y hmem)
        refine ⟨w, ?_⟩
        rw [getLast?_cons_of_ne_nil _ hne, hy, hw]
    | none =>
      obtain ⟨x, hx, hxs⟩ := h
      have hxr : x ∈ rest := by
        rcases List.mem_cons.1 hx with rfl | hx'
        · simp at hxs
        · exact hx'
      obtain ⟨v, hv⟩ := ih last ⟨x, hxr, hxs⟩
      show ∃ v, (last :: ffillCol last rest).getLast? = some (some v)
      have hne : ffillCol last rest ≠ [] := by
        intro hc
        rw [hc] at hv
        simp at hv
      rw [getLast?_cons_of_ne_nil _ hne]
      exact ⟨v, hv⟩


lemma fill_total (l : List (Option ℚ)) (h : ∃ x ∈ l, x.isSome = true) :
    ∀ y ∈ bfillCol (ffillCol none l), y.isSome = true := by
  obtain ⟨v, hv⟩ := ffillCol_getLast l none h
  have hrev : (ffillCol none l).reverse.head? = some (some v) := by
    rw [List.head?_reverse]; exact hv
  obtain ⟨tl, htl⟩ : ∃ tl, (ffillCol none l).reverse = some v :: tl := by
    cases hr : (ffillCol none l).reverse with
    | nil => rw [hr] at hrev; simp at hrev
    | cons a tl =>
      rw [hr] at hrev
      simp only [List.head?_cons, Option.some.injEq] at hrev
      exact ⟨tl, by rw [hrev]⟩
  intro y hy
  unfold bfillCol at hy
  rw [htl] at hy
  rw [List.mem_reverse] at hy
  rcases List.mem_cons.1 hy with rfl | hy'
  · rfl
  · exact ffillCol_some_all tl v y hy'

/-- C3: preprocessing preserves the shape of the table (index, column names
and count, per-column row counts) and, whenever every column has at least one
defined cell, the result has no missing cell. -/
theorem preprocess_data_spec (T : DataFrame)
    (h : ∀ p ∈ T.cols, ∃ x ∈ p.2, x.isSome = true) :
    (preprocess_data T).index = T.index ∧
    (preprocess_data T).cols.map Prod.fst = T.cols.map Prod.fst ∧
    (preprocess_data T).cols.length = T.cols.length ∧
    List.Forall₂ (fun p q => p.2.length = q.2.length) (preprocess_data T).cols T.cols ∧
    ∀ p ∈ (preprocess_data T).cols, ∀ y ∈ p.2, y.isSome = true := by
  refine ⟨rfl, ?_, by simp [preprocess_data], ?_, ?_⟩
  · simp only [preprocess_data, List.map_map]
    exact List.map_congr_left (fun p _ => rfl)
  · simp only [preprocess_data]
    rw [List.forall₂_map_left_iff]
    rw [List.forall₂_same]
    intro p _
    rw [bfillCol_length, ffillCol_length]
  · intro p hp
    simp only [preprocess_data, List.mem_map] at hp
    obtain ⟨q, hq, rfl⟩ := hp
    exact fill_total q.2 (h q hq)

def naTable : DataFrame :=
  ⟨[0, 1, 2], [("A", [none, some 1, none]), ("B", [some 2, none, some 3])]⟩

theorem preprocess_data_spec_witness :
    (∀ p ∈ naTable.cols, ∃ x ∈ p.2, x.isSome = true) ∧
    ((preprocess_data naTable).index = naTable.index ∧
     (preprocess_data naTable).cols.map Prod.fst = naTable.cols.map Prod.fst ∧
     (preprocess_data naTable).cols.length = naTable.cols.length ∧
     List.Forall₂ (fun p q => p.2.length = q.2.length) (preprocess_data naTable).cols
       naTable.cols ∧
     ∀ p ∈ (preprocess_data naTable).cols, ∀ y ∈ p.2, y.isSome = true) :=
  ⟨by decide, preprocess_data_spec naTable (by decide)⟩

/-- Modelled from the spec: `calculate_daily_returns` (§4.3), missing from
`src/utils.py`.  Percentage change between consecutive prices: each price is
paired with its successor, so the output is one entry shorter than the
input. -/
def calculate_daily_returns (prices : List ℚ) : List ℚ :=
  List.zipWith (fun p q => (q / p - 1) * 100) prices prices.tail

example : calculate_daily_returns [100, 102, 101] = [2, -50 / 51] := by
  norm_num [calculate_daily_returns]

/-- C1: for a price series of length n ≥ 2 the return series has length
n − 1 and entry i equals (prices[i+1] / prices[i] − 1) × 100; on
[100, 102, 101] the result is [2, −50/51], within two-decimal tolerance of
[2.0, −0.98]. -/
theorem calculate_daily_returns_spec :
    (∀ prices : List ℚ, 2 ≤ prices.length →
       (calculate_daily_returns prices).length = prices.length - 1 ∧
       ∀ i, i < prices.length - 1 →
         (calculate_daily_returns prices).getD i 0 =
           (prices.getD (i + 1) 0 / prices.getD i 0 - 1) * 100) ∧
    calculate_daily_returns [100, 102, 101] = [2, -50 / 51] ∧
    |(-50 / 51 : ℚ) - (-98 / 100)| < 1 / 100 := by
  refine ⟨?_, by norm_num [calculate_daily_returns], by norm_num [abs_lt]⟩
  intro prices _
  constructor
  · simp only [calculate_daily_returns, List.length_zipWith, List.length_tail]
    omega
  · intro i hi
    have h1 : i < prices.length := by omega
    have h2 : i + 1 < prices.length := by omega
    simp [calculate_daily_returns, List.getD_eq_getElem?_getD, List.getElem?_zipWith',
      List.getElem?_tail, List.getElem?_eq_getElem h1, List.getElem?_eq_getElem h2]

theorem calculate_daily_returns_spec_witness :
    2 ≤ ([100, 102, 101] : List ℚ).length ∧
    ((calculate_daily_returns [100, 102, 101]).length = ([100, 102, 101] : List ℚ).length - 1 ∧
     ∀ i, i < ([100, 102, 101] : List ℚ).length - 1 →
       (calculate_daily_returns [100, 102, 101]).getD i 0 =
         (([100, 102, 101] : List ℚ).getD (i + 1) 0 /
           ([100, 102, 101] : List ℚ).getD i 0 - 1) * 100) :=
  ⟨by decide, calculate_daily_returns_spec.1 [100, 102, 101] (by decide)⟩

/-- Mean of a list of rationals (0 for the empty list). -/
def sampleMean (l : List ℚ) : ℚ := l.sum / l.length

/-- Sample variance: squared deviations from the mean over `length − 1`. -/
def sampleVar (l : List ℚ) : ℚ :=
  (l.map (fun x => (x - sampleMean l) ^ 2)).sum / ((l.length : ℚ) - 1)

/-- Sample standard deviation. -/
noncomputable def sampleStd (l : List ℚ) : ℝ := Real.sqrt (sampleVar l)

/-- The trailing window of length w ending at position i. -/
def windowSlice (s : List ℚ) (w i : ℕ) : List ℚ := (s.drop (i + 1 - w)).take w

/-- Apply a statistic over every trailing window; positions with fewer than
w observations so far are undefined. -/
def rollingApply {β : Type} (stat : List ℚ → β) (s : List ℚ) (w : ℕ) : List (Option β) :=
  (List.range s.length).map
    (fun i => if i + 1 < w then none else some (stat (windowSlice s w i)))

/-- Modelled from the spec: `calculate_rolling_statistics` (§4.4), missing
from `src/utils.py`.  Windowed mean and sample standard deviation aligned to
the input; the window must be a positive integer no larger than the series
length, otherwise an InvalidArgument-class failure is signalled before any
computation. -/
noncomputable def calculate_rolling_statistics (s : List ℚ) (w : ℕ) :
    Except Err (List (Option ℚ) × List (Option ℝ)) :=
  if 1 ≤ w ∧ w ≤ s.length then
    .ok (rollingApply sampleMean s w, rollingApply sampleStd s w)
  else
    .error .invalidArgument

/-- Modelled from the spec: `calculate_volatility` (§4.5), missing from
`src/utils.py`.  Rolling sample standard deviation of the return series,
written as its own rolling pass with the same window validation. -/
noncomputable def calculate_volatility (s : List ℚ) (w : ℕ) :
    Except Err (List (Option ℝ)) :=
  if 1 ≤ w ∧ w ≤ s.length then
    .ok ((List.range s.length).map
      (fun i => if i + 1 < w then none
        else some (Real.sqrt (sampleVar ((s.drop (i + 1 - w)).take w)))))
  else
    .error .invalidArgument

/-- C4: for 1 < w ≤ len(s), the rolling mean and rolling sample standard
deviation both have the length of s, exactly the first w − 1 positions are
undefined, and every later position i holds the statistic of the slice
s[i−w+1 .. i]. -/
theorem calculate_rolling_statistics_spec (s : List ℚ) (w : ℕ)
    (h1 : 1 < w) (h2 : w ≤ s.length) :
    ∃ m σ, calculate_rolling_statistics s w = .ok (m, σ) ∧
      m.length = s.length ∧ σ.length = s.length ∧
      (∀ i, i < w - 1 → m.getD i (some 0) = none ∧ σ.getD i (some 0) = none) ∧
      (∀ i, w - 1 ≤ i → i < s.length →
        m.getD i none = some (sampleMean ((s.drop (i + 1 - w)).take w)) ∧
        σ.getD i none = some (sampleStd ((s.drop (i + 1 - w)).take w))) := by
  refine ⟨rollingApply sampleMean s w, rollingApply sampleStd s w, ?_, ?_, ?_, ?_, ?_⟩
  · simp only [calculate_rolling_statistics]
    rw [if_pos ⟨le_of_lt h1, h2⟩]
  · simp [rollingApply]
  · simp [rollingApply]
  · intro i hi
    have hlen : i < s.length := by omega
    constructor <;>
      simp [rollingApply, List.getD_eq_getElem?_getD, List.getElem?_range hlen,
        if_pos (show i + 1 < w by omega)]
  · intro i hi hlen
    constructor <;>
      simp [rollingApply, windowSlice, List.getD_eq_getElem?_getD,
        List.getElem?_range hlen, if_neg (show ¬ i + 1 < w by omega)]

theorem calculate_rolling_statistics_spec_witness :
    (1 < 2 ∧ 2 ≤ ([1, 2, 3] : List ℚ).length) ∧
    (∃ m σ, calculate_rolling_statistics [1, 2, 3] 2 = .ok (m, σ) ∧
      m.length = ([1, 2, 3] : List ℚ).length ∧ σ.length = ([1, 2, 3] : List ℚ).length ∧
      (∀ i, i < 2 - 1 → m.getD i (some 0) = none ∧ σ.getD i (some 0) = none) ∧
      (∀ i, 2 - 1 ≤ i → i < ([1, 2, 3] : List ℚ).length →
        m.getD i none = some (sampleMean ((([1, 2, 3] : List ℚ).drop (i + 1 - 2)).take 2)) ∧
        σ.getD i none = some (sampleStd ((([1, 2, 3] : List ℚ).drop (i + 1 - 2)).take 2)))) :=
  ⟨⟨by decide, by decide⟩, calculate_rolling_statistics_spec [1, 2, 3] 2 (by decide) (by decide)⟩

/-- C9: `calculate_volatility` coincides with the standard-deviation
component of `calculate_rolling_statistics` on every input, errors
included. -/
theorem calculate_volatility_eq_rolling_std (s : List ℚ) (w : ℕ) :
    calculate_volatility s w = (calculate_rolling_statistics s w).map Prod.snd := by
  simp only [calculate_volatility, calculate_rolling_statistics]
  by_cases h : 1 ≤ w ∧ w ≤ s.length
  · rw [if_pos h, if_pos h]; rfl
  · rw [if_neg h, if_neg h]; rfl

/-- Insert a value into an ascending-sorted list, keeping it sorted. -/
def insertSorted (x : ℚ) : List ℚ → List ℚ
  | [] => [x]
  | y :: ys => if x ≤ y then x :: y :: ys else y :: insertSorted x ys

/-- Sort a list of rationals ascending by repeated insertion. -/
def sortAsc (l : List ℚ) : List ℚ := l.foldr insertSorted []

/-- Modelled from the spec: `calculate_var` (§4.5), missing from
`src/utils.py`.  Historical VaR: the nearest-rank (lower order statistic)
empirical quantile of the return series at probability
p = 1 − confidence_level, i.e. the entry at index ⌊p·n⌋ of the
ascending-sorted returns, in the same percentage units and with no sign
forced; a confidence level outside the open interval (0, 1) signals an
InvalidArgument-class failure before any computation. -/
def calculate_var (returns : List ℚ) (confidence_level : ℚ) : Except Err ℚ :=
  if 0 < confidence_level ∧ confidence_level < 1 then
    let p := 1 - confidence_level
    let sorted := sortAsc returns
    .ok (sorted.getD (min (⌊p * returns.length⌋).toNat (returns.length - 1)) 0)
  else
    .error .invalidArgument

/-- C8: every out-of-domain parameter is rejected with an
InvalidArgument-class failure: a rolling window that is not a positive
integer no larger than the series length (rolling statistics and
volatility), and a confidence level outside (0, 1) (VaR). -/
theorem invalid_params_rejected :
    (∀ (s : List ℚ) (w : ℕ), ¬(1 ≤ w ∧ w ≤ s.length) →
       calculate_rolling_statistics s w = .error .invalidArgument) ∧
    (∀ (s : List ℚ) (w : ℕ), ¬(1 ≤ w ∧ w ≤ s.length) →
       calculate_volatility s w = .error .invalidArgument) ∧
    (∀ (r : List ℚ) (c : ℚ), ¬(0 < c ∧ c < 1) →
       calculate_var r c = .error .invalidArgument) := by
  refine ⟨?_, ?_, ?_⟩ <;>
    · intro a b h
      simp only [calculate_rolling_statistics, calculate_volatility, calculate_var]
      rw [if_neg h]

theorem invalid_params_rejected_witness :
    (¬(1 ≤ 0 ∧ 0 ≤ ([1, 2, 3] : List ℚ).length) ∧
      calculate_rolling_statistics [1, 2, 3] 0 = .error .invalidArgument) ∧
    (¬((0 : ℚ) < 2 ∧ (2 : ℚ) < 1) ∧
      calculate_var [1, 2, 3] 2 = .error .invalidArgument) :=
  ⟨⟨by decide, invalid_params_rejected.1 [1, 2, 3] 0 (by decide)⟩,
   ⟨by norm_num, invalid_params_rejected.2.2 [1, 2, 3] 2 (by norm_num)⟩⟩

lemma insertSorted_perm (x : ℚ) (l : List ℚ) : List.Perm (insertSorted x l) (x :: l) := by
  induction l with
  | nil => exact List.Perm.refl _
  | cons y ys ih =>
    simp only [insertSorted]
    by_cases h : x ≤ y
    · rw [if_pos h]
    · rw [if_neg h]
      exact (List.Perm.cons y ih).trans (List.Perm.swap x y ys)

lemma sortAsc_perm (l : List ℚ) : List.Perm (sortAsc l) l := by
  induction l with
  | nil => exact List.Perm.refl _
  | cons x xs ih =>
    exact (insertSorted_perm x (sortAsc xs)).trans (List.Perm.cons x ih)

/-- C5: for a valid confidence level and a nonempty return series, VaR is
the nearest-rank empirical quantile at probability 1 − confidence_level —
the order statistic at index ⌊p·n⌋ of the sorted returns — hence always one
of the observed returns (no sign is forced); on
[-5, -4, -3, -2, -1, 0, 1, 2, 3, 4, 5] at the 95% level it equals −5. -/
theorem calculate_var_spec :
    (∀ (returns : List ℚ) (c : ℚ), 0 < c → c < 1 → returns ≠ [] →
       ∃ q, calculate_var returns c = .ok q ∧
         q = (sortAsc returns).getD
               (min (⌊(1 - c) * returns.length⌋).toNat (returns.length - 1)) 0 ∧
         q ∈ returns) ∧
    calculate_var [-5, -4, -3, -2, -1, 0, 1, 2, 3, 4, 5] (95 / 100) = .ok (-5) := by
  constructor
  · intro returns c h0 h1 hne
    refine ⟨_, ?_, rfl, ?_⟩
    · simp only [calculate_var]
      rw [if_pos ⟨h0, h1⟩]
    · have hlen : (sortAsc returns).length = returns.length :=
        (sortAsc_perm returns).length_eq
      have hpos : 0 < returns.length := List.length_pos.2 hne
      have hidx : min (⌊(1 - c) * returns.length⌋).toNat (returns.length - 1) <
          (sortAsc returns).length := by
        rw [hlen]; omega
      rw [List.getD_eq_getElem?_getD, List.getElem?_eq_getElem hidx]
      exact (sortAsc_perm returns).mem_iff.1 (List.getElem_mem hidx)
  · simp only [calculate_var]
    rw [if_pos (by norm_num)]
    norm_num [sortAsc, insertSorted]

theorem calculate_var_spec_witness :
    ((0 : ℚ) < 1 / 2 ∧ (1 / 2 : ℚ) < 1 ∧ ([1, -3, 2] : List ℚ) ≠ []) ∧
    (∃ q, calculate_var [1, -3, 2] (1 / 2) = .ok q ∧
       q = (sortAsc [1, -3, 2]).getD
             (min (⌊(1 - 1 / 2) * (([1, -3, 2] : List ℚ).length : ℚ)⌋).toNat
               (([1, -3, 2] : List ℚ).length - 1)) 0 ∧
       q ∈ ([1, -3, 2] : List ℚ)) :=
  ⟨⟨by norm_num, by norm_num, by simp⟩,
   calculate_var_spec.1 [1, -3, 2] (1 / 2) (by norm_num) (by norm_num) (by simp)⟩

/-- Modelled from the spec: the Sharpe-ratio computation of §4.5, missing
from `src/utils.py`.  Mean excess return over the standard deviation of the
return series; when the return series is constant (zero standard deviation,
i.e. zero variance) the ratio is undefined and flagged as `none`, never
silently returned as a number. -/
noncomputable def calculate_sharpe (returns : List ℚ) (risk_free_rate : ℚ) : Option ℝ :=
  if sampleVar returns = 0 then none
  else some (((sampleMean returns : ℚ) - risk_free_rate : ℚ) / Real.sqrt (sampleVar returns))

lemma sampleVar_const {l : List ℚ} {c : ℚ} (h : ∀ x ∈ l, x = c) : sampleVar l = 0 := by
  rcases eq_or_ne l [] with rfl | hne
  · simp [sampleVar]
  · have hlen : (l.length : ℚ) ≠ 0 := by
      exact_mod_cast Nat.pos_iff_ne_zero.1 (List.length_pos.2 hne)
    have hsum : l.sum = l.length • c := List.sum_eq_card_nsmul l c h
    have hmean : sampleMean l = c := by
      rw [sampleMean, hsum, nsmul_eq_mul]
      exact mul_div_cancel_left₀ c hlen
    have hzero : ∀ y ∈ l.map (fun x => (x - sampleMean l) ^ 2), y = 0 := by
      intro y hy
      obtain ⟨x, hx, rfl⟩ := List.mem_map.1 hy
      rw [h x hx, hmean]
      ring
    rw [sampleVar, List.sum_eq_zero hzero, zero_div]

/-- C6: for every constant return series the Sharpe ratio is reported as
undefined (`none`) — detectably flagged, not silently the number 0 or some
other numeric value. -/
theorem calculate_sharpe_undefined (returns : List ℚ) (c rf : ℚ)
    (h : ∀ x ∈ returns, x = c) :
    calculate_sharpe returns rf = none ∧ ∀ y : ℝ, calculate_sharpe returns rf ≠ some y := by
  have hv := sampleVar_const h
  refine ⟨by simp [calculate_sharpe, hv], fun y => by simp [calculate_sharpe, hv]⟩

theorem calculate_sharpe_undefined_witness :
    (∀ x ∈ ([3, 3, 3] : List ℚ), x = 3) ∧
    (calculate_sharpe [3, 3, 3] (1 / 100) = none ∧
     ∀ y : ℝ, calculate_sharpe [3, 3, 3] (1 / 100) ≠ some y) :=
  ⟨by decide, calculate_sharpe_undefined [3, 3, 3] 3 (1 / 100) (by decide)⟩

/-- Embedded from `scripts/data_fetch.py` (`fetch_data`, lines 34–35):
rename every downloaded column to `<TICKER>_<col>` before combining. -/
def renameFrame (ticker : String) (d : DataFrame) : DataFrame :=
  ⟨d.index, d.cols.map (fun p => (ticker ++ "_" ++ p.1, p.2))⟩

/-- Embedded from `scripts/data_fetch.py` (line 40): `pd.concat(..., axis=1)`
over the per-ticker frames — all columns side by side over the date index. -/
def concatFrames (frames : List DataFrame) : DataFrame :=
  ⟨((frames.head?).map DataFrame.index).getD [], (frames.map DataFrame.cols).flatten⟩

/-- Embedded from `scripts/data_fetch.py` (lines 28–37): the downloading and
renaming loop inside the `try` block; a download failure is an exception
escaping the loop, modelled as the `Except` error case.  The downloader
itself (`yf.download`) is an external collaborator, passed as a function. -/
def fetch_body (download : String → Except String DataFrame) :
    List String → Except String (List DataFrame)
  | [] => .ok []
  | t :: ts =>
    match download t with
    | .error e => .error e
    | .ok d =>
      match fetch_body download ts with
      | .error e => .error e
      | .ok ds => .ok (renameFrame t d :: ds)

/-- Embedded from `scripts/data_fetch.py` (`fetch_data`, lines 25–45): the
whole body is wrapped in try/except and any exception is converted into a
`None` return value. -/
def fetch_data (download : String → Except String DataFrame)
    (tickers : List String) : Option DataFrame :=
  match fetch_body download tickers with
  | .ok frames => some (concatFrames frames)
  | .error _ => none

lemma fetch_body_error_of_download (download : String → Except String DataFrame) :
    ∀ tickers : List String, (∃ t ∈ tickers, ∃ e, download t = .error e) →
      ∃ e, fetch_body download tickers = .error e := by
  intro ts
  induction ts with
  | nil => rintro ⟨t, ht, _⟩; simp at ht
  | cons t ts ih =>
    rintro ⟨u, hu, e, he⟩
    rcases List.mem_cons.1 hu with rfl | hu'
    · exact ⟨e, by simp only [fetch_body]; rw [he]⟩
    · cases hd : download t with
      | error e2 => exact ⟨e2, by simp only [fetch_body]; rw [hd]⟩
      | ok d =>
        obtain ⟨e3, he3⟩ := ih ⟨u, hu', e, he⟩
        exact ⟨e3, by simp only [fetch_body]; rw [hd, he3]⟩

/-- C10: `fetch_data` never propagates a failure to its caller: whenever any
download step fails — and more generally whenever the combined body fails in
any way — it returns `none` rather than an error, so callers must check for
`none`. -/
theorem fetch_data_no_raise (download : String → Except String DataFrame)
    (tickers : List String) :
    ((∃ t ∈ tickers, ∃ e, download t = .error e) → fetch_data download tickers = none) ∧
    (∀ e, fetch_body download tickers = .error e → fetch_data download tickers = none) := by
  constructor
  · intro h
    obtain ⟨e, he⟩ := fetch_body_error_of_download download tickers h
    simp only [fetch_data]
    rw [he]
  · intro e he
    simp only [fetch_data]
    rw [he]

def failingDownload : String → Except String DataFrame :=
  fun t => if t = "TSLA" then .error "download failed" else .ok ⟨[], []⟩

theorem fetch_data_no_raise_witness :
    (∃ t ∈ ["TSLA", "SPY"], ∃ e, failingDownload t = .error e) ∧
    fetch_data failingDownload ["TSLA", "SPY"] = none :=
  ⟨⟨"TSLA", by simp, "download failed", by simp [failingDownload]⟩,
   (fetch_data_no_raise failingDownload ["TSLA", "SPY"]).1
     ⟨"TSLA", by simp, "download failed", by simp [failingDownload]⟩⟩
